import Mathlib

/-!
Verification of the Kanban domain store (src/kanban/storage.py, src/kanban/models.py).

Python dictionaries are modelled as insertion-ordered association lists
`List (String × α)`: assignment `d[k] = v` replaces the value at an existing
key in place and otherwise appends (`insertA`), deletion removes the entry
(`eraseA`), lookup finds the first entry with the key (`lookupA`).  These
semantics agree with CPython dicts, whose keys are unique; theorems that need
key uniqueness take it as an explicit hypothesis.

Sources of nondeterminism in the Python code (`uuid`-based `generate_id`,
`current_timestamp`) are passed in as explicit parameters, so every operation
is a pure function of the store state and those inputs.
-/

set_option autoImplicit false

namespace Kanban

/-- First-match lookup in an association list (Python `d[k]` / `d.get(k)`). -/
def lookupA {α : Type} (l : List (String × α)) (k : String) : Option α :=
  match l with
  | [] => none
  | p :: ps => if p.1 = k then some p.2 else lookupA ps k

/-- Python dict assignment `d[k] = v`: replace the value at an existing key
in place, otherwise append the new entry at the end. -/
def insertA {α : Type} (l : List (String × α)) (k : String) (v : α) :
    List (String × α) :=
  match l with
  | [] => [(k, v)]
  | p :: ps => if p.1 = k then (k, v) :: ps else p :: insertA ps k v

/-- Python dict deletion `del d[k]` / `d.pop(k)`: drop the first entry with
the key (the only one, since dict keys are unique). -/
def eraseA {α : Type} (l : List (String × α)) (k : String) : List (String × α) :=
  match l with
  | [] => []
  | p :: ps => if p.1 = k then ps else p :: eraseA ps k

/-- Python `d.setdefault(k, v)`: insert only when the key is absent. -/
def setdefaultA {α : Type} (l : List (String × α)) (k : String) (v : α) :
    List (String × α) :=
  if (lookupA l k).isSome then l else l ++ [(k, v)]

/-- The keys of an association list, in order. -/
def keysA {α : Type} (l : List (String × α)) : List String :=
  l.map (fun p => p.1)

/-- `d.get(code, 0)` on the story-sequence map. -/
def getSeq (l : List (String × Nat)) (k : String) : Nat :=
  (lookupA l k).getD 0

/-! ### Domain models (src/kanban/models.py) -/

/-- `Column` dataclass. -/
structure Column where
  id : String
  name : String
deriving DecidableEq, Repr

/-- `BoardSettings` dataclass, with the source's field defaults. -/
structure BoardSettings where
  default_columns : List String := ["Backlog", "In Progress", "Done"]
  wip_help_text : String := ""
  show_color_legend : Bool := true
deriving DecidableEq, Repr

/-- `Board` dataclass. -/
structure Board where
  id : String
  name : String
  columns : List Column := []
  archived : Bool := false
  settings : BoardSettings := {}
deriving DecidableEq, Repr

/-- `Story` dataclass, with the source's field defaults. -/
structure Story where
  id : String
  code : String
  title : String
  description : String := ""
  color : String := "#007ACC"
  tags : List String := []
  status : String := "Planned"
  archived : Bool := false
deriving DecidableEq, Repr

/-- `HistoryEntry` dataclass; `payload : Dict[str, str]` becomes an
association list. -/
structure HistoryEntry where
  id : String
  task_id : String
  timestamp : String
  event_type : String
  payload : List (String × String)
deriving DecidableEq, Repr

/-- `Task` dataclass, with the source's field defaults.  Note: the dataclass
declares no `color` field. -/
structure Task where
  id : String
  board_id : String
  column_id : String
  story_id : String
  title : String
  description : String := ""
  priority : String := ""
  estimate : String := ""
  due_date : Option String := none
  tags : List String := []
  archived : Bool := false
  history : List HistoryEntry := []
deriving DecidableEq, Repr

/-- One record of a comment's `edited_history` list: the dict
`{"timestamp": ..., "body": ...}` appended by `edit_comment`. -/
structure EditRecord where
  timestamp : String
  body : String
deriving DecidableEq, Repr

/-- `Comment` dataclass. -/
structure Comment where
  id : String
  task_id : String
  timestamp : String
  author : String
  body : String
  edited_history : List EditRecord := []
deriving DecidableEq, Repr

/-- `WeeklyReview` dataclass; `evidence : List[Dict[str, str]]` becomes a
list of association lists. -/
structure WeeklyReview where
  id : String
  board_ids : List String
  story_ids : List String
  start_date : String
  end_date : String
  summary_markdown : String
  evidence : List (List (String × String)) := []
deriving DecidableEq, Repr

/-! ### Serialized record shape (`dataclasses.asdict` / `to_dict`) -/

/-- JSON-like values, for stating which keys a serialized record carries. -/
inductive JValue where
  | s (v : String)
  | b (v : Bool)
  | null
  | arr (vs : List JValue)
  | obj (fields : List (String × JValue))

/-- `HistoryEntry.to_dict` (via `dataclasses.asdict`): the dataclass fields
in declaration order. -/
def HistoryEntry.to_dict (h : HistoryEntry) : List (String × JValue) :=
  [("id", .s h.id), ("task_id", .s h.task_id), ("timestamp", .s h.timestamp),
   ("event_type", .s h.event_type),
   ("payload", .obj (h.payload.map (fun p => (p.1, JValue.s p.2))))]

/-- `Task.to_dict`: `asdict(self)` with the history re-serialized.  The keys
are exactly the `Task` dataclass fields in declaration order. -/
def Task.to_dict (t : Task) : List (String × JValue) :=
  [("id", .s t.id), ("board_id", .s t.board_id), ("column_id", .s t.column_id),
   ("story_id", .s t.story_id), ("title", .s t.title),
   ("description", .s t.description), ("priority", .s t.priority),
   ("estimate", .s t.estimate),
   ("due_date", match t.due_date with | none => .null | some d => .s d),
   ("tags", .arr (t.tags.map JValue.s)), ("archived", .b t.archived),
   ("history", .arr (t.history.map (fun h => .obj h.to_dict)))]

/-! ### The store (class `KanbanDataStore`) -/

/-- The in-memory state of `KanbanDataStore`: five id-keyed entity tables and
the per-story-code sequence counters.  The backing file path is not part of
the domain state. -/
structure KanbanDataStore where
  boards : List (String × Board) := []
  stories : List (String × Story) := []
  tasks : List (String × Task) := []
  comments : List (String × Comment) := []
  reviews : List (String × WeeklyReview) := []
  story_sequences : List (String × Nat) := []
deriving DecidableEq, Repr

/-- The content of the backing/exported file built by `_save`: all entity
collections, the sequence map, and the fixed schema version tag. -/
structure Document where
  boards : List Board := []
  stories : List Story := []
  tasks : List Task := []
  comments : List Comment := []
  weekly_reviews : List WeeklyReview := []
  story_sequences : List (String × Nat) := []
  schema_version : String := "1.0"
deriving DecidableEq, Repr

/-- `_save`: serialize every collection (dict values in insertion order) plus
`schema_version = "1.0"`. -/
def KanbanDataStore.save (s : KanbanDataStore) : Document :=
  { boards := s.boards.map (fun p => p.2)
    stories := s.stories.map (fun p => p.2)
    tasks := s.tasks.map (fun p => p.2)
    comments := s.comments.map (fun p => p.2)
    weekly_reviews := s.reviews.map (fun p => p.2)
    story_sequences := s.story_sequences
    schema_version := "1.0" }

/-- One `for ... in data.get(...)` loop of `_load_from_dict`: insert each
incoming entity keyed by its id, skipping ids already present. -/
def mergeEntities {α : Type} (idOf : α → String)
    (acc : List (String × α)) (incoming : List α) : List (String × α) :=
  incoming.foldl
    (fun acc e => if (lookupA acc (idOf e)).isSome then acc else acc ++ [(idOf e, e)])
    acc

/-- The sequence-counter loop of `_load_from_dict`:
`self.story_sequences[code] = max(sequence, self.story_sequences.get(code, 0))`. -/
def mergeSequences (acc : List (String × Nat)) (incoming : List (String × Nat)) :
    List (String × Nat) :=
  incoming.foldl (fun acc p => insertA acc p.1 (max p.2 (getSeq acc p.1))) acc

/-- `_load_from_dict`: merge a document into the store entity-by-entity,
skipping existing ids, and raise each sequence counter to the max. -/
def KanbanDataStore.load_from_dict (s : KanbanDataStore) (data : Document) :
    KanbanDataStore :=
  { boards := mergeEntities Board.id s.boards data.boards
    stories := mergeEntities Story.id s.stories data.stories
    tasks := mergeEntities Task.id s.tasks data.tasks
    comments := mergeEntities Comment.id s.comments data.comments
    reviews := mergeEntities WeeklyReview.id s.reviews data.weekly_reviews
    story_sequences := mergeSequences s.story_sequences data.story_sequences }

/-- The empty store produced by clearing all five collections and the
sequence map (`import_from` without merge). -/
def emptyStore : KanbanDataStore := {}

/-- `import_from`: check the schema version first (raising `ValueError`
before any mutation on mismatch), otherwise clear when not merging and merge
the document in.  The result pairs the store state after the call with the
error message when the version check fails. -/
def KanbanDataStore.import_from (s : KanbanDataStore) (data : Document)
    (merge : Bool) : KanbanDataStore × Option String :=
  if data.schema_version ≠ "1.0" then
    (s, some ("Unsupported schema version: " ++ data.schema_version))
  else
    ((if merge then s else emptyStore).load_from_dict data, none)

/-! ### Store operations -/

/-- Zero-padded decimal formatting `{:03d}` of `_next_task_id` (numbers
beyond 999 are not truncated). -/
def pad3 (n : Nat) : String :=
  let s := toString n
  if s.length < 3 then String.mk (List.replicate (3 - s.length) '0') ++ s else s

/-- `_next_task_id`: increment the counter for the story code and return the
formatted id together with the updated store. -/
def KanbanDataStore.next_task_id (s : KanbanDataStore) (story_code : String) :
    String × KanbanDataStore :=
  let sequence := getSeq s.story_sequences story_code + 1
  (story_code ++ "-" ++ pad3 sequence,
   { s with story_sequences := insertA s.story_sequences story_code sequence })

/-- `create_story` (keyword arguments left at their defaults).  The fresh
uuid `story_id` is an explicit parameter.  `setdefault(code, 0)` ensures a
counter exists for the code. -/
def KanbanDataStore.create_story (s : KanbanDataStore)
    (story_id code title : String) : KanbanDataStore × Story :=
  let story : Story := { id := story_id, code := code, title := title }
  ({ s with stories := insertA s.stories story_id story
            story_sequences := setdefaultA s.story_sequences code 0 },
   story)

/-- `create_task`: resolve the story (a `KeyError` before any mutation when
absent, hence `none`), allocate the next sequential id for its code, build
the task with the optional keyword fields, and append the `created` history
entry.  The fresh history-entry uuid and the timestamp are parameters. -/
def KanbanDataStore.create_task (s : KanbanDataStore)
    (board_id column_id story_id title : String)
    (description priority estimate : String) (due_date : Option String)
    (tags : List String) (hist_id ts : String) :
    Option (KanbanDataStore × Task) :=
  match lookupA s.stories story_id with
  | none => none
  | some story =>
    let r := s.next_task_id story.code
    let task_id := r.1
    let task : Task :=
      { id := task_id, board_id := board_id, column_id := column_id
        story_id := story_id, title := title, description := description
        priority := priority, estimate := estimate, due_date := due_date
        tags := tags
        history := [{ id := hist_id, task_id := task_id, timestamp := ts
                      event_type := "created"
                      payload := [("board_id", board_id), ("column_id", column_id)] }] }
    some ({ r.2 with tasks := insertA r.2.tasks task_id task }, task)

/-- `delete_task`: delete every comment whose `task_id` matches, then remove
the task.  (When the id is absent Python raises `KeyError` only after the
comments are removed; the state effect is the same.) -/
def KanbanDataStore.delete_task (s : KanbanDataStore) (task_id : String) :
    KanbanDataStore :=
  { s with comments := s.comments.filter (fun p => p.2.task_id ≠ task_id)
           tasks := eraseA s.tasks task_id }

/-- `delete_story`: cascade `delete_task` over a snapshot of the tasks whose
`story_id` matches, then remove the story. -/
def KanbanDataStore.delete_story (s : KanbanDataStore) (story_id : String) :
    KanbanDataStore :=
  let victims := s.tasks.filter (fun p => p.2.story_id = story_id)
  let s1 := victims.foldl (fun acc p => acc.delete_task p.1) s
  { s1 with stories := eraseA s1.stories story_id }

/-- `delete_board`: cascade `delete_task` over a snapshot of the tasks whose
`board_id` matches, then remove the board. -/
def KanbanDataStore.delete_board (s : KanbanDataStore) (board_id : String) :
    KanbanDataStore :=
  let victims := s.tasks.filter (fun p => p.2.board_id = board_id)
  let s1 := victims.foldl (fun acc p => acc.delete_task p.1) s
  { s1 with boards := eraseA s1.boards board_id }

/-- `rehome_task`: all three lookups precede any mutation, so a missing task
or story is `none` with the store untouched.  On success: mint a new id under
the target story's code, append the `rehome` entry (payload: the new id) to
the original task, copy every field and the full history into a new task
record, insert it, and pop the old id. -/
def KanbanDataStore.rehome_task (s : KanbanDataStore)
    (task_id target_story_id : String) (hist_id ts : String) :
    Option (KanbanDataStore × Task) :=
  match lookupA s.tasks task_id with
  | none => none
  | some task =>
    match lookupA s.stories task.story_id with
    | none => none
    | some _old_story =>
      match lookupA s.stories target_story_id with
      | none => none
      | some new_story =>
        let r := s.next_task_id new_story.code
        let new_task_id := r.1
        let entry : HistoryEntry :=
          { id := hist_id, task_id := task.id, timestamp := ts
            event_type := "rehome", payload := [("new_task_id", new_task_id)] }
        let task' : Task := { task with history := task.history ++ [entry] }
        let new_task : Task :=
          { id := new_task_id, board_id := task.board_id
            column_id := task.column_id, story_id := target_story_id
            title := task.title, description := task.description
            priority := task.priority, estimate := task.estimate
            due_date := task.due_date, tags := task.tags
            archived := task.archived, history := task'.history }
        let tasks1 := insertA s.tasks task_id task'
        let tasks2 := eraseA (insertA tasks1 new_task_id new_task) task_id
        some ({ r.2 with tasks := tasks2 }, new_task)

/-- `remove_column`: drop the column from the board (`none` when the board is
absent), then reassign every task in the store pointing at it to the board's
first remaining column (or `""` if none remain) and append a
`column-removed` history entry.  Each affected task gets its own fresh
history-entry uuid, modelled by `fresh_id` keyed by the task's table key. -/
def KanbanDataStore.remove_column (s : KanbanDataStore)
    (board_id column_id : String) (fresh_id : String → String) (ts : String) :
    Option KanbanDataStore :=
  match lookupA s.boards board_id with
  | none => none
  | some board =>
    let board' : Board :=
      { board with columns := board.columns.filter (fun c => c.id ≠ column_id) }
    let new_col : String :=
      match board'.columns with
      | [] => ""
      | c :: _ => c.id
    let upd : String × Task → Task := fun p =>
      if p.2.column_id = column_id then
        { p.2 with
          column_id := new_col
          history := p.2.history ++
            [{ id := fresh_id p.1, task_id := p.2.id, timestamp := ts
               event_type := "column-removed"
               payload := [("column_id", column_id)] }] }
      else p.2
    some { s with boards := insertA s.boards board_id board'
                  tasks := s.tasks.map (fun p => (p.1, upd p)) }

/-- `edit_comment`: `none` when the comment is absent (lookup precedes any
mutation).  Otherwise append the dict holding `current_timestamp()` and the
previous body to `edited_history`, overwrite the body, and refresh the
visible timestamp with a second `current_timestamp()` call.  The two calls
are the parameters `ts1` and `ts2`. -/
def KanbanDataStore.edit_comment (s : KanbanDataStore)
    (comment_id new_body : String) (ts1 ts2 : String) :
    Option KanbanDataStore :=
  match lookupA s.comments comment_id with
  | none => none
  | some c =>
    let c' : Comment :=
      { c with edited_history := c.edited_history ++ [{ timestamp := ts1, body := c.body }]
               body := new_body
               timestamp := ts2 }
    some { s with comments := insertA s.comments comment_id c' }

/-! ### Operation traces for the sequence-counter invariant

A trace of the operations relevant to task-id allocation.  `step` runs one
operation with the real store functions and also records, as instrumentation,
the `(story code, sequence number)` pair whenever `_next_task_id` fires
(`create_task` and `rehome_task` are its only callers).  Operations whose
Python counterpart raises `KeyError` before mutating leave the store
unchanged and allocate nothing. -/

inductive Op where
  | opCreateStory (story_id code title : String)
  | opCreateTask (board_id column_id story_id title : String)
      (description priority estimate : String) (due_date : Option String)
      (tags : List String) (hist_id ts : String)
  | opRehomeTask (task_id target_story_id hist_id ts : String)
  | opDeleteTask (task_id : String)
  | opDeleteStory (story_id : String)
  | opDeleteBoard (board_id : String)

/-- Run one operation; the second component is the allocator emission. -/
def step (s : KanbanDataStore) : Op → KanbanDataStore × Option (String × Nat)
  | .opCreateStory sid code title => ((s.create_story sid code title).1, none)
  | .opCreateTask bid cid sid title d pr est due tg hid ts =>
    match s.create_task bid cid sid title d pr est due tg hid ts,
          lookupA s.stories sid with
    | some (s', _), some story =>
      (s', some (story.code, getSeq s.story_sequences story.code + 1))
    | _, _ => (s, none)
  | .opRehomeTask tid tgt hid ts =>
    match s.rehome_task tid tgt hid ts, lookupA s.stories tgt with
    | some (s', _), some story =>
      (s', some (story.code, getSeq s.story_sequences story.code + 1))
    | _, _ => (s, none)
  | .opDeleteTask tid => (s.delete_task tid, none)
  | .opDeleteStory sid => (s.delete_story sid, none)
  | .opDeleteBoard bid => (s.delete_board bid, none)

/-- Run a trace, collecting every allocator emission in order. -/
def run (s : KanbanDataStore) : List Op → KanbanDataStore × List (String × Nat)
  | [] => (s, [])
  | op :: ops =>
    let r := step s op
    let r' := run r.1 ops
    (r'.1, (match r.2 with | some e => [e] | none => []) ++ r'.2)

/-- The sequence numbers issued for one story code along a trace. -/
def issuedFor (s : KanbanDataStore) (ops : List Op) (c : String) : List Nat :=
  (run s ops).2.filterMap (fun p => if p.1 = c then some p.2 else none)

/-- The first entry with the given key, together with its key. -/
def findPair {α : Type} (l : List (String × α)) (k : String) :
    Option (String × α) :=
  match l with
  | [] => none
  | p :: ps => if p.1 = k then some p else findPair ps k

/-- The list of sequence numbers one `step` emission contributes for a code. -/
def emittedFor (e : Option (String × Nat)) (c : String) : List Nat :=
  match e with
  | some p => if p.1 = c then [p.2] else []
  | none => []

/-- A table is well-keyed when its keys are unique (as in every Python dict)
and each entry is keyed by its entity's own `id` (the store only ever writes
`table[entity.id] = entity`). -/
def keyedBy {α : Type} (idOf : α → String) (l : List (String × α)) : Prop :=
  (keysA l).Nodup ∧ ∀ p ∈ l, idOf p.2 = p.1

/-- Store states reachable through the Python API: every table is well-keyed
and the sequence map has unique keys. -/
def wf (s : KanbanDataStore) : Prop :=
  keyedBy Board.id s.boards ∧ keyedBy Story.id s.stories ∧
  keyedBy Task.id s.tasks ∧ keyedBy Comment.id s.comments ∧
  keyedBy WeeklyReview.id s.reviews ∧ (keysA s.story_sequences).Nodup

instance {α : Type} (idOf : α → String) (l : List (String × α)) :
    Decidable (keyedBy idOf l) := by
  unfold keyedBy
  infer_instance

instance (s : KanbanDataStore) : Decidable (wf s) := by
  unfold wf
  infer_instance

/-! ### A concrete store for witnesses -/

/-- A sample column. -/
def colX : Column := { id := "colX", name := "Todo" }

/-- A sample board owning `colX`. -/
def board1 : Board := { id := "b1", name := "Board", columns := [colX] }

/-- Sample stories with codes `A`, `B`, `C`. -/
def storyA : Story := { id := "sA", code := "A", title := "Story A" }

/-- See `storyA`. -/
def storyB : Story := { id := "sB", code := "B", title := "Story B" }

/-- See `storyA`. -/
def storyC : Story := { id := "sC", code := "C", title := "Story C" }

/-- The `created` history entry of the sample task. -/
def hist1 : HistoryEntry :=
  { id := "h1", task_id := "A-001", timestamp := "2024-01-01T00:00:00Z"
    event_type := "created"
    payload := [("board_id", "b1"), ("column_id", "colX")] }

/-- A sample task `A-001` on `board1` / `colX` under `storyA`. -/
def task1 : Task :=
  { id := "A-001", board_id := "b1", column_id := "colX", story_id := "sA"
    title := "T1", history := [hist1] }

/-- A sample comment on `A-001`. -/
def comment1 : Comment :=
  { id := "c1", task_id := "A-001", timestamp := "2024-01-01T00:00:00Z"
    author := "me", body := "old body" }

/-- A small reachable store state used to instantiate the theorems. -/
def sampleStore : KanbanDataStore :=
  { boards := [("b1", board1)]
    stories := [("sA", storyA), ("sB", storyB), ("sC", storyC)]
    tasks := [("A-001", task1)]
    comments := [("c1", comment1)]
    reviews := []
    story_sequences := [("A", 1)] }

/-- A sample incoming document whose story `sA` collides with the local one
and whose counters overlap the local map. -/
def sampleDoc : Document :=
  { stories := [{ id := "sA", code := "A", title := "Incoming duplicate" },
                { id := "sD", code := "D", title := "Incoming fresh" }]
    story_sequences := [("A", 5), ("B", 2)]
    schema_version := "1.0" }

/-- A document with a wrong schema version. -/
def badDoc : Document := { schema_version := "2.0" }

/-! ### Association-list lemmas -/

theorem keysA_append {α : Type} (l l' : List (String × α)) :
    keysA (l ++ l') = keysA l ++ keysA l' := by
  simp [keysA]

theorem lookupA_eq_none_iff {α : Type} :
    ∀ (l : List (String × α)) (k : String), lookupA l k = none ↔ k ∉ keysA l
  | [], k => by simp [lookupA, keysA]
  | p :: ps, k => by
    by_cases h : p.1 = k
    · simp [lookupA, keysA, h]
    · simp only [lookupA, keysA, List.map_cons, List.mem_cons, if_neg h]
      rw [lookupA_eq_none_iff ps k]
      constructor
      · intro hn hor
        rcases hor with hk | hk
        · exact h hk.symm
        · exact hn hk
      · intro hn hk
        exact hn (Or.inr hk)

theorem mem_of_lookupA {α : Type} :
    ∀ (l : List (String × α)) (k : String) (v : α),
      lookupA l k = some v → (k, v) ∈ l
  | [], _, _, h => by simp [lookupA] at h
  | p :: ps, k, v, h => by
    by_cases hk : p.1 = k
    · rw [lookupA, if_pos hk] at h
      have hv : p.2 = v := Option.some.inj h
      have hp : (k, v) = p := by
        cases p
        cases hk
        cases hv
        rfl
      rw [hp]
      exact List.mem_cons_self _ _
    · rw [lookupA, if_neg hk] at h
      exact List.mem_cons_of_mem _ (mem_of_lookupA ps k v h)

theorem lookupA_append_of_some {α : Type} {l : List (String × α)}
    {k : String} {v : α} (l' : List (String × α)) (h : lookupA l k = some v) :
    lookupA (l ++ l') k = some v := by
  induction l with
  | nil => simp [lookupA] at h
  | cons p ps ih =>
    by_cases hk : p.1 = k
    · simp only [lookupA, if_pos hk] at h ⊢
      exact h
    · simp only [lookupA, if_neg hk] at h ⊢
      exact ih h

theorem lookupA_append_of_none {α : Type} {l : List (String × α)}
    {k : String} (l' : List (String × α)) (h : lookupA l k = none) :
    lookupA (l ++ l') k = lookupA l' k := by
  induction l with
  | nil => simp [lookupA]
  | cons p ps ih =>
    by_cases hk : p.1 = k
    · simp [lookupA, if_pos hk] at h
    · simp only [lookupA, if_neg hk] at h ⊢
      exact ih h

theorem lookupA_insertA_self {α : Type} :
    ∀ (l : List (String × α)) (k : String) (v : α),
      lookupA (insertA l k v) k = some v
  | [], k, v => by simp [insertA, lookupA]
  | p :: ps, k, v => by
    by_cases hk : p.1 = k
    · simp [insertA, lookupA, hk]
    · simp only [insertA, if_neg hk, lookupA]
      exact lookupA_insertA_self ps k v

theorem lookupA_insertA_ne {α : Type} :
    ∀ (l : List (String × α)) (k k' : String) (v : α), k' ≠ k →
      lookupA (insertA l k v) k' = lookupA l k'
  | [], k, k', v, h => by
    simp only [insertA, lookupA]
    rw [if_neg (fun hh => h hh.symm)]
  | p :: ps, k, k', v, h => by
    by_cases hk : p.1 = k
    · simp only [insertA, if_pos hk, lookupA]
      have h1 : ¬(k = k') := fun hh => h hh.symm
      have h2 : ¬(p.1 = k') := by
        rw [hk]
        exact h1
      rw [if_neg h1, if_neg h2]
    · simp only [insertA, if_neg hk, lookupA]
      by_cases hp : p.1 = k'
      · rw [if_pos hp, if_pos hp]
      · rw [if_neg hp, if_neg hp]
        exact lookupA_insertA_ne ps k k' v h

theorem insertA_of_not_mem {α : Type} :
    ∀ (l : List (String × α)) (k : String) (v : α), lookupA l k = none →
      insertA l k v = l ++ [(k, v)]
  | [], k, v, _ => rfl
  | p :: ps, k, v, h => by
    by_cases hk : p.1 = k
    · simp [lookupA, if_pos hk] at h
    · simp only [insertA, if_neg hk, List.cons_append, List.cons.injEq, true_and]
      simp only [lookupA, if_neg hk] at h
      exact insertA_of_not_mem ps k v h

theorem keysA_insertA {α : Type} :
    ∀ (l : List (String × α)) (k : String) (v : α),
      keysA (insertA l k v) = if k ∈ keysA l then keysA l else keysA l ++ [k]
  | [], k, v => by simp [insertA, keysA]
  | p :: ps, k, v => by
    by_cases hk : p.1 = k
    · simp [insertA, keysA, hk]
    · have hcons : keysA (p :: insertA ps k v) = p.1 :: keysA (insertA ps k v) := rfl
      have hcons2 : keysA (p :: ps) = p.1 :: keysA ps := rfl
      rw [insertA, if_neg hk, hcons, keysA_insertA ps k v, hcons2]
      by_cases hm : k ∈ keysA ps
      · rw [if_pos hm, if_pos (List.mem_cons_of_mem _ hm)]
      · rw [if_neg hm, if_neg, List.cons_append]
        intro hmem
        rcases List.mem_cons.mp hmem with hkp | hkp
        · exact hk hkp.symm
        · exact hm hkp

theorem nodup_keysA_insertA {α : Type} {l : List (String × α)}
    (k : String) (v : α) (h : (keysA l).Nodup) :
    (keysA (insertA l k v)).Nodup := by
  rw [keysA_insertA l k v]
  by_cases hm : k ∈ keysA l
  · rw [if_pos hm]
    exact h
  · rw [if_neg hm]
    refine List.Nodup.append h (List.nodup_singleton k) ?_
    intro a ha hb
    rcases List.mem_singleton.mp hb with rfl
    exact hm ha

theorem lookupA_eraseA_self {α : Type} :
    ∀ (l : List (String × α)) (k : String), (keysA l).Nodup →
      lookupA (eraseA l k) k = none
  | [], k, _ => rfl
  | p :: ps, k, h => by
    have hcons : keysA (p :: ps) = p.1 :: keysA ps := rfl
    rw [hcons] at h
    rcases List.nodup_cons.mp h with ⟨hnot, hps⟩
    by_cases hk : p.1 = k
    · rw [eraseA, if_pos hk]
      rw [lookupA_eq_none_iff]
      rw [hk] at hnot
      exact hnot
    · rw [eraseA, if_neg hk, lookupA, if_neg hk]
      exact lookupA_eraseA_self ps k hps

theorem lookupA_eraseA_of_none {α : Type} :
    ∀ (l : List (String × α)) (k k' : String), lookupA l k' = none →
      lookupA (eraseA l k) k' = none
  | [], _, _, _ => rfl
  | p :: ps, k, k', h => by
    by_cases hp : p.1 = k'
    · simp [lookupA, if_pos hp] at h
    · rw [lookupA, if_neg hp] at h
      by_cases hk : p.1 = k
      · rw [eraseA, if_pos hk]
        exact h
      · rw [eraseA, if_neg hk, lookupA, if_neg hp]
        exact lookupA_eraseA_of_none ps k k' h

theorem lookupA_eraseA_ne {α : Type} :
    ∀ (l : List (String × α)) (k k' : String), k' ≠ k →
      lookupA (eraseA l k) k' = lookupA l k'
  | [], _, _, _ => rfl
  | p :: ps, k, k', h => by
    by_cases hk : p.1 = k
    · rw [eraseA, if_pos hk, lookupA, if_neg]
      rw [hk]
      exact fun hh => h hh.symm
    · rw [eraseA, if_neg hk, lookupA, lookupA]
      by_cases hp : p.1 = k'
      · rw [if_pos hp, if_pos hp]
      · rw [if_neg hp, if_neg hp]
        exact lookupA_eraseA_ne ps k k' h

theorem keysA_eraseA_subset {α : Type} :
    ∀ (l : List (String × α)) (k : String), keysA (eraseA l k) ⊆ keysA l
  | [], _ => by intro a ha; exact ha
  | q :: qs, k => by
    by_cases hq : q.1 = k
    · rw [eraseA, if_pos hq]
      intro a ha
      exact List.mem_cons_of_mem _ ha
    · rw [eraseA, if_neg hq]
      intro a ha
      rcases List.mem_cons.mp ha with rfl | ha
      · exact List.mem_cons_self _ _
      · exact List.mem_cons_of_mem _ (keysA_eraseA_subset qs k ha)

theorem nodup_keysA_eraseA {α : Type} :
    ∀ (l : List (String × α)) (k : String), (keysA l).Nodup →
      (keysA (eraseA l k)).Nodup
  | [], _, h => h
  | p :: ps, k, h => by
    have hcons : keysA (p :: ps) = p.1 :: keysA ps := rfl
    rw [hcons] at h
    rcases List.nodup_cons.mp h with ⟨hnot, hps⟩
    by_cases hk : p.1 = k
    · rw [eraseA, if_pos hk]
      exact hps
    · rw [eraseA, if_neg hk]
      have hcons2 : keysA (p :: eraseA ps k) = p.1 :: keysA (eraseA ps k) := rfl
      rw [hcons2]
      refine List.nodup_cons.mpr ⟨?_, nodup_keysA_eraseA ps k hps⟩
      intro hmem
      exact hnot (keysA_eraseA_subset ps k hmem)

theorem getSeq_insertA_self (l : List (String × Nat)) (k : String) (v : Nat) :
    getSeq (insertA l k v) k = v := by
  simp [getSeq, lookupA_insertA_self]

theorem getSeq_insertA_ne (l : List (String × Nat)) (k c : String) (v : Nat)
    (h : c ≠ k) : getSeq (insertA l k v) c = getSeq l c := by
  simp [getSeq, lookupA_insertA_ne l k c v h]

theorem getSeq_setdefaultA_zero (l : List (String × Nat)) (k c : String) :
    getSeq (setdefaultA l k 0) c = getSeq l c := by
  unfold setdefaultA
  by_cases h : (lookupA l k).isSome
  · rw [if_pos h]
  · rw [if_neg h]
    have hn : lookupA l k = none := by
      cases hl : lookupA l k
      · rfl
      · rw [hl] at h
        simp at h
    by_cases hc : c = k
    · subst hc
      unfold getSeq
      rw [lookupA_append_of_none _ hn, hn]
      simp [lookupA]
    · unfold getSeq
      cases hl : lookupA l c with
      | some v => rw [lookupA_append_of_some _ hl]
      | none =>
        rw [lookupA_append_of_none _ hl]
        have : lookupA [(k, 0)] c = none := by
          simp only [lookupA]
          rw [if_neg (fun hh => hc hh.symm)]
        rw [this]

theorem lookupA_filter_of_none {α : Type} (pred : String × α → Bool) :
    ∀ (l : List (String × α)) (k : String), lookupA l k = none →
      lookupA (l.filter pred) k = none
  | [], _, _ => rfl
  | p :: ps, k, h => by
    by_cases hk : p.1 = k
    · rw [lookupA, if_pos hk] at h
      cases h
    · rw [lookupA, if_neg hk] at h
      rw [List.filter_cons]
      cases hpred : pred p
      · simp only [Bool.false_eq_true, if_false]
        exact lookupA_filter_of_none pred ps k h
      · simp only [if_true]
        rw [lookupA, if_neg hk]
        exact lookupA_filter_of_none pred ps k h

theorem lookupA_filter {α : Type} (pred : String × α → Bool) :
    ∀ (l : List (String × α)) (k : String), (keysA l).Nodup →
      lookupA (l.filter pred) k =
        (lookupA l k).bind (fun v => if pred (k, v) then some v else none)
  | [], _, _ => rfl
  | p :: ps, k, h => by
    have hcons : keysA (p :: ps) = p.1 :: keysA ps := rfl
    rw [hcons] at h
    rcases List.nodup_cons.mp h with ⟨hnot, hps⟩
    by_cases hk : p.1 = k
    · have hpk : pred (k, p.2) = pred p := by
        cases p
        cases hk
        rfl
      rw [List.filter_cons, lookupA, if_pos hk]
      cases hpred : pred p
      · simp only [Bool.false_eq_true, if_false]
        have hnone : lookupA ps k = none := by
          rw [lookupA_eq_none_iff]
          rw [hk] at hnot
          exact hnot
        rw [lookupA_filter_of_none pred ps k hnone]
        have hfalse : pred (k, p.2) = false := by rw [hpk, hpred]
        simp [hfalse]
      · simp only [if_true]
        rw [lookupA, if_pos hk]
        have htrue : pred (k, p.2) = true := by rw [hpk, hpred]
        simp [htrue]
    · rw [List.filter_cons, lookupA, if_neg hk]
      cases hpred : pred p
      · simp only [Bool.false_eq_true, if_false]
        exact lookupA_filter pred ps k hps
      · simp only [if_true]
        rw [lookupA, if_neg hk]
        exact lookupA_filter pred ps k hps

theorem nodup_keysA_filter {α : Type} (pred : String × α → Bool)
    (l : List (String × α)) (h : (keysA l).Nodup) :
    (keysA (l.filter pred)).Nodup := by
  have hsub : List.Sublist ((l.filter pred).map (fun p => p.1))
      (l.map (fun p => p.1)) :=
    List.Sublist.map (fun p => p.1) (List.filter_sublist l)
  exact List.Nodup.sublist hsub h

theorem findPair_of_lookupA {α : Type} :
    ∀ (l : List (String × α)) (k : String) (v : α),
      lookupA l k = some v → findPair l k = some (k, v)
  | [], _, _, h => by cases h
  | p :: ps, k, v, h => by
    by_cases hk : p.1 = k
    · rw [lookupA, if_pos hk] at h
      have hv : p.2 = v := Option.some.inj h
      rw [findPair, if_pos hk]
      cases p
      cases hk
      cases hv
      rfl
    · rw [lookupA, if_neg hk] at h
      rw [findPair, if_neg hk]
      exact findPair_of_lookupA ps k v h

theorem lookupA_map_keyed {α β : Type} (g : String × α → β) :
    ∀ (l : List (String × α)) (k : String),
      lookupA (l.map (fun p => (p.1, g p))) k = (findPair l k).map g
  | [], _ => rfl
  | p :: ps, k => by
    rw [List.map_cons, lookupA, findPair]
    by_cases hk : p.1 = k
    · rw [if_pos hk, if_pos hk]
      rfl
    · rw [if_neg hk, if_neg hk]
      exact lookupA_map_keyed g ps k

/-! ### Merge lemmas (`_load_from_dict`) -/

theorem mergeEntities_cons {α : Type} (idOf : α → String)
    (acc : List (String × α)) (e : α) (es : List α) :
    mergeEntities idOf acc (e :: es) =
      mergeEntities idOf
        (if (lookupA acc (idOf e)).isSome then acc else acc ++ [(idOf e, e)]) es := by
  rfl

theorem mergeEntities_append {α : Type} (idOf : α → String) :
    ∀ (incoming : List α) (acc : List (String × α)),
      ∃ ext, mergeEntities idOf acc incoming = acc ++ ext
  | [], acc => ⟨[], by simp [mergeEntities]⟩
  | e :: es, acc => by
    rw [mergeEntities_cons]
    by_cases h : (lookupA acc (idOf e)).isSome
    · rw [if_pos h]
      exact mergeEntities_append idOf es acc
    · rw [if_neg h]
      rcases mergeEntities_append idOf es (acc ++ [(idOf e, e)]) with ⟨ext, hext⟩
      exact ⟨[(idOf e, e)] ++ ext, by rw [hext, List.append_assoc]⟩

theorem mergeEntities_preserves {α : Type} (idOf : α → String)
    (incoming : List α) (acc : List (String × α)) (k : String) (v : α)
    (h : lookupA acc k = some v) :
    lookupA (mergeEntities idOf acc incoming) k = some v := by
  rcases mergeEntities_append idOf incoming acc with ⟨ext, hext⟩
  rw [hext]
  exact lookupA_append_of_some ext h

theorem mergeEntities_disjoint {α : Type} (idOf : α → String) :
    ∀ (l : List (String × α)) (acc : List (String × α)),
      (∀ p ∈ l, lookupA acc p.1 = none) → (keysA l).Nodup →
      (∀ p ∈ l, idOf p.2 = p.1) →
      mergeEntities idOf acc (l.map (fun p => p.2)) = acc ++ l
  | [], acc, _, _, _ => by simp [mergeEntities]
  | p :: ps, acc, hdisj, hnd, hkeyed => by
    have hid : idOf p.2 = p.1 := hkeyed p (List.mem_cons_self _ _)
    have hacc : lookupA acc p.1 = none := hdisj p (List.mem_cons_self _ _)
    have hcons : keysA (p :: ps) = p.1 :: keysA ps := rfl
    rw [hcons] at hnd
    rcases List.nodup_cons.mp hnd with ⟨hnot, hps⟩
    rw [List.map_cons, mergeEntities_cons, hid, hacc]
    simp only [Option.isSome_none, Bool.false_eq_true, if_false]
    have hdisj' : ∀ q ∈ ps, lookupA (acc ++ [(p.1, p.2)]) q.1 = none := by
      intro q hq
      have hqacc : lookupA acc q.1 = none := hdisj q (List.mem_cons_of_mem _ hq)
      rw [lookupA_append_of_none _ hqacc]
      have hqne : ¬(p.1 = q.1) := by
        intro hh
        apply hnot
        rw [hh]
        exact List.mem_map_of_mem (fun r => r.1) hq
      simp only [lookupA]
      rw [if_neg hqne]
    have hkeyed' : ∀ q ∈ ps, idOf q.2 = q.1 := fun q hq =>
      hkeyed q (List.mem_cons_of_mem _ hq)
    rw [mergeEntities_disjoint idOf ps (acc ++ [(p.1, p.2)]) hdisj' hps hkeyed']
    rw [List.append_assoc]
    rfl

theorem mergeSequences_cons (acc : List (String × Nat)) (k : String) (v : Nat)
    (tl : List (String × Nat)) :
    mergeSequences acc ((k, v) :: tl) =
      mergeSequences (insertA acc k (max v (getSeq acc k))) tl := rfl

theorem mergeSequences_disjoint :
    ∀ (l acc : List (String × Nat)),
      (∀ p ∈ l, lookupA acc p.1 = none) → (keysA l).Nodup →
      mergeSequences acc l = acc ++ l
  | [], acc, _, _ => by simp [mergeSequences]
  | (k, v) :: tl, acc, hdisj, hnd => by
    have hacc : lookupA acc k = none := hdisj (k, v) (List.mem_cons_self _ _)
    have hcons : keysA ((k, v) :: tl) = k :: keysA tl := rfl
    rw [hcons] at hnd
    rcases List.nodup_cons.mp hnd with ⟨hnot, htl⟩
    have hget : getSeq acc k = 0 := by
      unfold getSeq
      rw [hacc]
      rfl
    rw [mergeSequences_cons, hget, Nat.max_zero, insertA_of_not_mem acc k v hacc]
    have hdisj' : ∀ p ∈ tl, lookupA (acc ++ [(k, v)]) p.1 = none := by
      intro q hq
      have hqacc : lookupA acc q.1 = none := hdisj q (List.mem_cons_of_mem _ hq)
      rw [lookupA_append_of_none _ hqacc]
      have hqne : ¬(k = q.1) := by
        intro hh
        apply hnot
        rw [hh]
        exact List.mem_map_of_mem (fun r => r.1) hq
      simp only [lookupA]
      rw [if_neg hqne]
    rw [mergeSequences_disjoint tl (acc ++ [(k, v)]) hdisj' htl,
      List.append_assoc]
    rfl

theorem getSeq_mergeSequences :
    ∀ (l acc : List (String × Nat)) (c : String), (keysA l).Nodup →
      getSeq (mergeSequences acc l) c = max (getSeq acc c) (getSeq l c)
  | [], acc, c, _ => by
    simp [mergeSequences, getSeq, lookupA]
  | (k, v) :: tl, acc, c, hnd => by
    have hcons : keysA ((k, v) :: tl) = k :: keysA tl := rfl
    rw [hcons] at hnd
    rcases List.nodup_cons.mp hnd with ⟨hnot, htl⟩
    rw [mergeSequences_cons]
    rw [getSeq_mergeSequences tl _ c htl]
    by_cases hc : c = k
    · subst hc
      rw [getSeq_insertA_self]
      have htl0 : getSeq tl c = 0 := by
        unfold getSeq
        rw [(lookupA_eq_none_iff tl c).mpr hnot]
        rfl
      have hhd : getSeq ((c, v) :: tl) c = v := by
        unfold getSeq
        simp [lookupA]
      rw [htl0, hhd, Nat.max_zero, Nat.max_comm]
    · rw [getSeq_insertA_ne _ _ _ _ hc]
      have hhd : getSeq ((k, v) :: tl) c = getSeq tl c := by
        unfold getSeq
        simp only [lookupA]
        rw [if_neg (fun hh => hc hh.symm)]
      rw [hhd]

/-! ### Snapshot codec theorems -/

theorem load_from_dict_of_empty (s : KanbanDataStore) (h : wf s) :
    emptyStore.load_from_dict s.save = s := by
  rcases h with ⟨⟨hbn, hbk⟩, ⟨hsn, hsk⟩, ⟨htn, htk⟩, ⟨hcn, hck⟩, ⟨hrn, hrk⟩, hqn⟩
  have hempty : ∀ {α : Type} (l : List (String × α)) (p : String × α),
      p ∈ l → lookupA ([] : List (String × α)) p.1 = none := by
    intro α l p _
    rfl
  cases s with
  | mk boards stories tasks comments reviews seqs =>
    simp only [KanbanDataStore.load_from_dict, KanbanDataStore.save, emptyStore]
    congr 1
    · exact mergeEntities_disjoint Board.id boards [] (fun p hp => rfl) hbn hbk
    · exact mergeEntities_disjoint Story.id stories [] (fun p hp => rfl) hsn hsk
    · exact mergeEntities_disjoint Task.id tasks [] (fun p hp => rfl) htn htk
    · exact mergeEntities_disjoint Comment.id comments [] (fun p hp => rfl) hcn hck
    · exact mergeEntities_disjoint WeeklyReview.id reviews [] (fun p hp => rfl) hrn hrk
    · exact mergeSequences_disjoint seqs [] (fun p hp => rfl) hqn

/-- C4: exporting the snapshot (`_save` content) and importing it without
merge into a fresh, empty store reconstructs the original store exactly:
every entity table is equal per-id and per-field and the sequence counters
are unchanged, and the import succeeds (no error). -/
theorem export_import_roundtrip (s : KanbanDataStore) (h : wf s) :
    emptyStore.import_from s.save false = (s, none) := by
  have hv : s.save.schema_version = "1.0" := rfl
  simp only [KanbanDataStore.import_from, hv, ne_eq, not_true_eq_false,
    if_false, Bool.false_eq_true]
  rw [load_from_dict_of_empty s h]

/-- Witness for C4 at the concrete `sampleStore`. -/
theorem export_import_roundtrip_witness :
    wf sampleStore ∧ emptyStore.import_from sampleStore.save false = (sampleStore, none) :=
  ⟨by decide, export_import_roundtrip sampleStore (by decide)⟩

/-- C5: importing a document whose `schema_version` differs from `"1.0"`
fails with the error carrying the unexpected version string, and the store
state after the call is exactly the state before it — the check precedes any
clearing or merging. -/
theorem import_version_mismatch (s : KanbanDataStore) (data : Document)
    (merge : Bool) (h : data.schema_version ≠ "1.0") :
    s.import_from data merge =
      (s, some ("Unsupported schema version: " ++ data.schema_version)) := by
  simp [KanbanDataStore.import_from, h]

/-- Witness for C5: importing `badDoc` (version `"2.0"`) into `sampleStore`
fails and leaves the store as it was. -/
theorem import_version_mismatch_witness :
    badDoc.schema_version ≠ "1.0" ∧
    sampleStore.import_from badDoc false =
      (sampleStore, some ("Unsupported schema version: " ++ badDoc.schema_version)) :=
  ⟨by decide, import_version_mismatch sampleStore badDoc false (by decide)⟩

/-- C3: import with the merge flag never overwrites an entity whose id
already exists locally (lookups of pre-existing ids are unchanged in all
five tables), and every sequence counter becomes the max of the local and
incoming counters — in particular it never decreases. -/
theorem import_merge_preserves (s : KanbanDataStore) (data : Document)
    (hv : data.schema_version = "1.0")
    (hnd : (keysA data.story_sequences).Nodup) :
    (s.import_from data true).2 = none ∧
    (∀ k v, lookupA s.boards k = some v →
      lookupA (s.import_from data true).1.boards k = some v) ∧
    (∀ k v, lookupA s.stories k = some v →
      lookupA (s.import_from data true).1.stories k = some v) ∧
    (∀ k v, lookupA s.tasks k = some v →
      lookupA (s.import_from data true).1.tasks k = some v) ∧
    (∀ k v, lookupA s.comments k = some v →
      lookupA (s.import_from data true).1.comments k = some v) ∧
    (∀ k v, lookupA s.reviews k = some v →
      lookupA (s.import_from data true).1.reviews k = some v) ∧
    (∀ c, getSeq (s.import_from data true).1.story_sequences c =
      max (getSeq s.story_sequences c) (getSeq data.story_sequences c)) ∧
    (∀ c, getSeq s.story_sequences c ≤
      getSeq (s.import_from data true).1.story_sequences c) := by
  have himp : s.import_from data true = (s.load_from_dict data, none) := by
    simp [KanbanDataStore.import_from, hv]
  rw [himp]
  refine ⟨rfl, ?_, ?_, ?_, ?_, ?_, ?_, ?_⟩
  · intro k v hk
    exact mergeEntities_preserves Board.id data.boards s.boards k v hk
  · intro k v hk
    exact mergeEntities_preserves Story.id data.stories s.stories k v hk
  · intro k v hk
    exact mergeEntities_preserves Task.id data.tasks s.tasks k v hk
  · intro k v hk
    exact mergeEntities_preserves Comment.id data.comments s.comments k v hk
  · intro k v hk
    exact mergeEntities_preserves WeeklyReview.id data.weekly_reviews s.reviews k v hk
  · intro c
    exact getSeq_mergeSequences data.story_sequences s.story_sequences c hnd
  · intro c
    show getSeq s.story_sequences c ≤
      getSeq (s.load_from_dict data).story_sequences c
    have heq : getSeq (s.load_from_dict data).story_sequences c =
        max (getSeq s.story_sequences c) (getSeq data.story_sequences c) :=
      getSeq_mergeSequences data.story_sequences s.story_sequences c hnd
    rw [heq]
    exact Nat.le_max_left _ _

/-- Witness for C3: merging `sampleDoc` into `sampleStore`. -/
theorem import_merge_preserves_witness :
    sampleDoc.schema_version = "1.0" ∧
    (keysA sampleDoc.story_sequences).Nodup ∧
    ((sampleStore.import_from sampleDoc true).2 = none ∧
    (∀ k v, lookupA sampleStore.boards k = some v →
      lookupA (sampleStore.import_from sampleDoc true).1.boards k = some v) ∧
    (∀ k v, lookupA sampleStore.stories k = some v →
      lookupA (sampleStore.import_from sampleDoc true).1.stories k = some v) ∧
    (∀ k v, lookupA sampleStore.tasks k = some v →
      lookupA (sampleStore.import_from sampleDoc true).1.tasks k = some v) ∧
    (∀ k v, lookupA sampleStore.comments k = some v →
      lookupA (sampleStore.import_from sampleDoc true).1.comments k = some v) ∧
    (∀ k v, lookupA sampleStore.reviews k = some v →
      lookupA (sampleStore.import_from sampleDoc true).1.reviews k = some v) ∧
    (∀ c, getSeq (sampleStore.import_from sampleDoc true).1.story_sequences c =
      max (getSeq sampleStore.story_sequences c) (getSeq sampleDoc.story_sequences c)) ∧
    (∀ c, getSeq sampleStore.story_sequences c ≤
      getSeq (sampleStore.import_from sampleDoc true).1.story_sequences c)) :=
  ⟨by decide, by decide, import_merge_preserves sampleStore sampleDoc (by decide) (by decide)⟩

/-! ### Rehoming -/

/-- C2: when the task, its own story and the target story all exist,
`rehome_task` returns a new task whose history is exactly the original
task's pre-call history followed by one `rehome` entry whose payload carries
the new task id, and afterwards the old task id no longer resolves in the
task table. -/
theorem rehome_preserves_history_old_id_gone (s : KanbanDataStore)
    (tid tgt hid ts : String) (t : Task) (st1 st2 : Story)
    (ht : lookupA s.tasks tid = some t)
    (hos : lookupA s.stories t.story_id = some st1)
    (hts : lookupA s.stories tgt = some st2)
    (hnd : (keysA s.tasks).Nodup) :
    ∃ s' nt, s.rehome_task tid tgt hid ts = some (s', nt) ∧
      nt.history = t.history ++
        [{ id := hid, task_id := t.id, timestamp := ts, event_type := "rehome"
           payload := [("new_task_id", nt.id)] }] ∧
      lookupA s'.tasks tid = none := by
  simp only [KanbanDataStore.rehome_task, ht, hos, hts]
  refine ⟨_, _, rfl, rfl, ?_⟩
  have h1 := nodup_keysA_insertA tid
    ({ t with history := t.history ++
        [{ id := hid, task_id := t.id, timestamp := ts, event_type := "rehome"
           payload := [("new_task_id", (s.next_task_id st2.code).1)] }] } : Task)
    hnd
  have h2 := nodup_keysA_insertA (s.next_task_id st2.code).1
    ({ t with id := (s.next_task_id st2.code).1, story_id := tgt
              history := t.history ++
        [{ id := hid, task_id := t.id, timestamp := ts, event_type := "rehome"
           payload := [("new_task_id", (s.next_task_id st2.code).1)] }] } : Task)
    h1
  exact lookupA_eraseA_self _ tid h2

/-- Witness for C2: rehoming `A-001` from story `A` to story `B` in
`sampleStore`. -/
theorem rehome_preserves_history_old_id_gone_witness :
    ∃ s' nt, sampleStore.rehome_task "A-001" "sB" "h2" "2024-01-02T00:00:00Z" =
        some (s', nt) ∧
      nt.history = task1.history ++
        [{ id := "h2", task_id := task1.id, timestamp := "2024-01-02T00:00:00Z"
           event_type := "rehome", payload := [("new_task_id", nt.id)] }] ∧
      lookupA s'.tasks "A-001" = none :=
  rehome_preserves_history_old_id_gone sampleStore "A-001" "sB" "h2"
    "2024-01-02T00:00:00Z" task1 storyA storyB (by decide) (by decide)
    (by decide) (by decide)

/-- C10 (amended): `rehome_task` copies every history entry verbatim — no
entry's `task_id` is rewritten to the new id; the sequence of `task_id`
fields of the new history is exactly that of the original entries (each
keeping whatever id it was recorded under) followed by the `rehome` marker,
which carries the pre-call task id. -/
theorem rehome_keeps_entry_task_ids (s : KanbanDataStore)
    (tid tgt hid ts : String) (t : Task) (st1 st2 : Story)
    (ht : lookupA s.tasks tid = some t)
    (hos : lookupA s.stories t.story_id = some st1)
    (hts : lookupA s.stories tgt = some st2) :
    ∃ s' nt, s.rehome_task tid tgt hid ts = some (s', nt) ∧
      nt.history.map HistoryEntry.task_id =
        t.history.map HistoryEntry.task_id ++ [t.id] := by
  simp only [KanbanDataStore.rehome_task, ht, hos, hts]
  refine ⟨_, _, rfl, ?_⟩
  simp

/-- Witness for the amended C10 at `sampleStore`. -/
theorem rehome_keeps_entry_task_ids_witness :
    ∃ s' nt, sampleStore.rehome_task "A-001" "sB" "h2" "2024-01-02T00:00:00Z" =
        some (s', nt) ∧
      nt.history.map HistoryEntry.task_id =
        task1.history.map HistoryEntry.task_id ++ [task1.id] :=
  rehome_keeps_entry_task_ids sampleStore "A-001" "sB" "h2"
    "2024-01-02T00:00:00Z" task1 storyA storyB (by decide) (by decide)
    (by decide)

/-- Counterexample to C10 as stated: rehome `A-001` to story `B` (new id
`B-001`), then rehome `B-001` to story `C`.  The second call's old id is
`B-001`, yet the carried-over `created` and first `rehome` entries still
hold `A-001`, so not every carried entry has the old task id in `task_id`. -/
theorem rehome_entry_task_ids_counterexample :
    ((sampleStore.rehome_task "A-001" "sB" "h2" "2024-01-02T00:00:00Z").bind
      (fun r => r.1.rehome_task "B-001" "sC" "h3" "2024-01-03T00:00:00Z")).map
        (fun r2 => decide (∀ e ∈ r2.2.history, e.task_id = "B-001")) =
      some false := by decide

/-! ### Column removal -/

/-- C7: removing a column reassigns every task pointing at it to the board's
first remaining column (or `""` when none remain) and appends to that task
exactly one `column-removed` history entry whose payload records the removed
column's id. -/
theorem remove_column_reassigns (s : KanbanDataStore) (bid colId : String)
    (fresh_id : String → String) (ts : String) (b : Board) (tid : String)
    (t : Task) (hb : lookupA s.boards bid = some b)
    (ht : lookupA s.tasks tid = some t) (hcol : t.column_id = colId) :
    ∃ s', s.remove_column bid colId fresh_id ts = some s' ∧
      lookupA s'.tasks tid = some
        { t with
            column_id :=
              match b.columns.filter (fun c => c.id ≠ colId) with
              | [] => ""
              | c :: _ => c.id
            history := t.history ++
              [{ id := fresh_id tid, task_id := t.id, timestamp := ts
                 event_type := "column-removed"
                 payload := [("column_id", colId)] }] } := by
  subst hcol
  simp only [KanbanDataStore.remove_column, hb]
  refine ⟨_, rfl, ?_⟩
  rw [lookupA_map_keyed _ s.tasks tid, findPair_of_lookupA s.tasks tid t ht]
  simp

/-- Witness for C7: removing the only column `colX` of `board1` sends the
sample task's `column_id` to `""` and appends the `column-removed` entry. -/
theorem remove_column_reassigns_witness :
    ∃ s', sampleStore.remove_column "b1" "colX" (fun _ => "h4")
        "2024-01-02T00:00:00Z" = some s' ∧
      lookupA s'.tasks "A-001" = some
        { task1 with
            column_id :=
              match board1.columns.filter (fun c => c.id ≠ "colX") with
              | [] => ""
              | c :: _ => c.id
            history := task1.history ++
              [{ id := "h4", task_id := task1.id
                 timestamp := "2024-01-02T00:00:00Z"
                 event_type := "column-removed"
                 payload := [("column_id", "colX")] }] } :=
  remove_column_reassigns sampleStore "b1" "colX" (fun _ => "h4")
    "2024-01-02T00:00:00Z" board1 "A-001" task1 (by decide) (by decide)
    (by decide)

/-! ### Comment editing -/

/-- C8 (amended): `edit_comment` appends the previous body paired with the
timestamp of the edit (not the comment's previous timestamp) to the
edit-history log, overwrites the body, and sets the visible timestamp to the
edit time. -/
theorem edit_comment_logs_previous_body (s : KanbanDataStore)
    (cid new_body ts1 ts2 : String) (c : Comment)
    (hc : lookupA s.comments cid = some c) :
    ∃ s', s.edit_comment cid new_body ts1 ts2 = some s' ∧
      lookupA s'.comments cid = some
        { c with
            edited_history :=
              c.edited_history ++ [{ timestamp := ts1, body := c.body }]
            body := new_body
            timestamp := ts2 } := by
  simp only [KanbanDataStore.edit_comment, hc]
  exact ⟨_, rfl, lookupA_insertA_self _ _ _⟩

/-- Witness for the amended C8 at `sampleStore`. -/
theorem edit_comment_logs_previous_body_witness :
    ∃ s', sampleStore.edit_comment "c1" "new body" "2024-02-02T10:00:00Z"
        "2024-02-02T10:00:00Z" = some s' ∧
      lookupA s'.comments "c1" = some
        { comment1 with
            edited_history := comment1.edited_history ++
              [{ timestamp := "2024-02-02T10:00:00Z", body := comment1.body }]
            body := "new body"
            timestamp := "2024-02-02T10:00:00Z" } :=
  edit_comment_logs_previous_body sampleStore "c1" "new body"
    "2024-02-02T10:00:00Z" "2024-02-02T10:00:00Z" comment1 (by decide)

/-- Counterexample to C8 as stated: editing the sample comment (previous
timestamp `2024-01-01T00:00:00Z`) at `2024-02-02T10:00:00Z` stores the edit
time in the log record, not the previous timestamp. -/
theorem edit_comment_timestamp_counterexample :
    ((sampleStore.edit_comment "c1" "new body" "2024-02-02T10:00:00Z"
        "2024-02-02T10:00:00Z").map
      (fun s' => (lookupA s'.comments "c1").map Comment.edited_history)) =
      some (some [{ timestamp := "2024-02-02T10:00:00Z", body := "old body" }]) ∧
    comment1.timestamp = "2024-01-01T00:00:00Z" ∧
    ("2024-02-02T10:00:00Z" : String) ≠ "2024-01-01T00:00:00Z" := by
  refine ⟨by decide, by decide, by decide⟩

/-! ### Task snapshot record shape -/

/-- C9: the serialized Task record (the `Task` dataclass via `asdict`)
carries `due_date`, `tags`, `archived` and `history` keys but no `color`
key at all — the dataclass has no color field, although the UI reads
`task.color` and passes `color=` into create/update. -/
theorem task_snapshot_record_no_color (t : Task) :
    "color" ∉ (Task.to_dict t).map Prod.fst ∧
    "due_date" ∈ (Task.to_dict t).map Prod.fst ∧
    "tags" ∈ (Task.to_dict t).map Prod.fst ∧
    "archived" ∈ (Task.to_dict t).map Prod.fst ∧
    "history" ∈ (Task.to_dict t).map Prod.fst := by
  refine ⟨?_, ?_, ?_, ?_, ?_⟩ <;> simp [Task.to_dict]

/-! ### The per-code sequence counter along operation traces -/

theorem delete_task_story_sequences (s : KanbanDataStore) (tid : String) :
    (s.delete_task tid).story_sequences = s.story_sequences := rfl

theorem foldl_delete_task_story_sequences :
    ∀ (l : List (String × Task)) (s : KanbanDataStore),
      (l.foldl (fun acc p => acc.delete_task p.1) s).story_sequences =
        s.story_sequences
  | [], _ => rfl
  | p :: ps, s => by
    rw [List.foldl_cons]
    exact foldl_delete_task_story_sequences ps _

theorem delete_story_story_sequences (s : KanbanDataStore) (sid : String) :
    (s.delete_story sid).story_sequences = s.story_sequences := by
  unfold KanbanDataStore.delete_story
  exact foldl_delete_task_story_sequences _ s

theorem delete_board_story_sequences (s : KanbanDataStore) (bid : String) :
    (s.delete_board bid).story_sequences = s.story_sequences := by
  unfold KanbanDataStore.delete_board
  exact foldl_delete_task_story_sequences _ s

theorem getSeq_next_task_id (s : KanbanDataStore) (code c : String) :
    getSeq (s.next_task_id code).2.story_sequences c =
      if code = c then getSeq s.story_sequences c + 1
      else getSeq s.story_sequences c := by
  by_cases h : code = c
  · subst h
    rw [if_pos rfl]
    exact getSeq_insertA_self _ _ _
  · rw [if_neg h]
    exact getSeq_insertA_ne _ _ _ _ (fun hh => h hh.symm)

theorem step_spec (s : KanbanDataStore) (op : Op) (c : String) :
    emittedFor (step s op).2 c =
      List.range' (getSeq s.story_sequences c + 1)
        (emittedFor (step s op).2 c).length ∧
    getSeq (step s op).1.story_sequences c =
      getSeq s.story_sequences c + (emittedFor (step s op).2 c).length := by
  cases op with
  | opCreateStory sid code title =>
    refine ⟨rfl, ?_⟩
    show getSeq (s.create_story sid code title).1.story_sequences c =
      getSeq s.story_sequences c + 0
    rw [Nat.add_zero]
    exact getSeq_setdefaultA_zero s.story_sequences code c
  | opCreateTask bid cid sid title d pr est due tg hid ts =>
    cases hst : lookupA s.stories sid with
    | none =>
      have hct : s.create_task bid cid sid title d pr est due tg hid ts = none := by
        simp [KanbanDataStore.create_task, hst]
      simp only [step, hct, hst]
      exact ⟨rfl, rfl⟩
    | some story =>
      simp only [step, KanbanDataStore.create_task, hst]
      by_cases hc : story.code = c
      · subst hc
        simp only [emittedFor, if_pos rfl]
        refine ⟨rfl, ?_⟩
        have hseq : getSeq (s.next_task_id story.code).2.story_sequences
            story.code = getSeq s.story_sequences story.code + 1 := by
          rw [getSeq_next_task_id, if_pos rfl]
        simp [hseq]
      · simp only [emittedFor, if_neg hc]
        refine ⟨rfl, ?_⟩
        have hseq : getSeq (s.next_task_id story.code).2.story_sequences c =
            getSeq s.story_sequences c := by
          rw [getSeq_next_task_id, if_neg hc]
        simp [hseq]
  | opRehomeTask tid tgt hid ts =>
    cases htk : lookupA s.tasks tid with
    | none =>
      have hrh : s.rehome_task tid tgt hid ts = none := by
        simp [KanbanDataStore.rehome_task, htk]
      simp only [step, hrh]
      exact ⟨rfl, rfl⟩
    | some task =>
      cases hos : lookupA s.stories task.story_id with
      | none =>
        have hrh : s.rehome_task tid tgt hid ts = none := by
          simp [KanbanDataStore.rehome_task, htk, hos]
        simp only [step, hrh]
        exact ⟨rfl, rfl⟩
      | some st1 =>
        cases hts2 : lookupA s.stories tgt with
        | none =>
          have hrh : s.rehome_task tid tgt hid ts = none := by
            simp [KanbanDataStore.rehome_task, htk, hos, hts2]
          simp only [step, hrh]
          exact ⟨rfl, rfl⟩
        | some story =>
          simp only [step, KanbanDataStore.rehome_task, htk, hos, hts2]
          by_cases hc : story.code = c
          · subst hc
            simp only [emittedFor, if_pos rfl]
            refine ⟨rfl, ?_⟩
            have hseq : getSeq (s.next_task_id story.code).2.story_sequences
                story.code = getSeq s.story_sequences story.code + 1 := by
              rw [getSeq_next_task_id, if_pos rfl]
            simp [hseq]
          · simp only [emittedFor, if_neg hc]
            refine ⟨rfl, ?_⟩
            have hseq : getSeq (s.next_task_id story.code).2.story_sequences c =
                getSeq s.story_sequences c := by
              rw [getSeq_next_task_id, if_neg hc]
            simp [hseq]
  | opDeleteTask tid =>
    refine ⟨rfl, ?_⟩
    show getSeq (s.delete_task tid).story_sequences c = _ + 0
    rw [delete_task_story_sequences, Nat.add_zero]
  | opDeleteStory sid =>
    refine ⟨rfl, ?_⟩
    show getSeq (s.delete_story sid).story_sequences c = _ + 0
    rw [delete_story_story_sequences, Nat.add_zero]
  | opDeleteBoard bid =>
    refine ⟨rfl, ?_⟩
    show getSeq (s.delete_board bid).story_sequences c = _ + 0
    rw [delete_board_story_sequences, Nat.add_zero]

theorem issuedFor_nil (s : KanbanDataStore) (c : String) :
    issuedFor s [] c = [] := rfl

theorem issuedFor_cons (s : KanbanDataStore) (op : Op) (ops : List Op)
    (c : String) :
    issuedFor s (op :: ops) c =
      emittedFor (step s op).2 c ++ issuedFor (step s op).1 ops c := by
  unfold issuedFor
  have hrun : (run s (op :: ops)).2 =
      (match (step s op).2 with | some e => [e] | none => []) ++
        (run (step s op).1 ops).2 := rfl
  rw [hrun, List.filterMap_append]
  have h1 : List.filterMap (fun p => if p.1 = c then some p.2 else none)
      (match (step s op).2 with | some e => [e] | none => []) =
        emittedFor (step s op).2 c := by
    cases e : (step s op).2 with
    | none => rfl
    | some p =>
      by_cases hc : p.1 = c
      · simp [emittedFor, hc]
      · simp [emittedFor, hc]
  rw [h1]

theorem run_cons_fst (s : KanbanDataStore) (op : Op) (ops : List Op) :
    (run s (op :: ops)).1 = (run (step s op).1 ops).1 := rfl

theorem run_alloc_spec :
    ∀ (ops : List Op) (s : KanbanDataStore) (c : String),
      issuedFor s ops c =
        List.range' (getSeq s.story_sequences c + 1) (issuedFor s ops c).length ∧
      getSeq (run s ops).1.story_sequences c =
        getSeq s.story_sequences c + (issuedFor s ops c).length
  | [], s, c => ⟨rfl, rfl⟩
  | op :: ops, s, c => by
    rcases step_spec s op c with ⟨hE, hg⟩
    rcases run_alloc_spec ops (step s op).1 c with ⟨hI, hg2⟩
    rw [issuedFor_cons, run_cons_fst]
    constructor
    · rw [List.length_append]
      conv_lhs => rw [hE, hI]
      rw [hg]
      have harr : getSeq s.story_sequences c +
          (emittedFor (step s op).2 c).length + 1 =
          getSeq s.story_sequences c + 1 +
            1 * (emittedFor (step s op).2 c).length := by
        ring
      rw [harr]
      have hsum : (emittedFor (step s op).2 c).length +
          (issuedFor (step s op).1 ops c).length =
          (issuedFor (step s op).1 ops c).length +
            (emittedFor (step s op).2 c).length := Nat.add_comm _ _
      rw [hsum]
      exact List.range'_append _ _ _ _
    · rw [hg2, hg, List.length_append, Nat.add_assoc]

/-- C1: along any trace of store operations (task/story creation, task
deletion, story deletion, board deletion, rehoming), the sequence numbers
the allocator issues for one story code form the consecutive run
`counter+1, counter+2, …` — strictly increasing by 1 and never repeating —
and the per-code counter only ever grows by the number of issued ids:
deletions never decrease or reset it. -/
theorem task_id_allocation_monotone (s : KanbanDataStore) (ops : List Op)
    (c : String) :
    issuedFor s ops c =
      List.range' (getSeq s.story_sequences c + 1) (issuedFor s ops c).length ∧
    (issuedFor s ops c).Nodup ∧
    getSeq (run s ops).1.story_sequences c =
      getSeq s.story_sequences c + (issuedFor s ops c).length := by
  rcases run_alloc_spec ops s c with ⟨h1, h2⟩
  refine ⟨h1, ?_, h2⟩
  rw [h1]
  exact List.nodup_range' _ _ 1 Nat.one_pos

/-! ### Board deletion cascade -/

theorem foldl_delete_task_stories :
    ∀ (l : List (String × Task)) (s : KanbanDataStore),
      (l.foldl (fun a p => a.delete_task p.1) s).stories = s.stories
  | [], _ => rfl
  | p :: ps, s => by
    rw [List.foldl_cons]
    exact foldl_delete_task_stories ps _

theorem lookupA_delete_task_comments (s : KanbanDataStore) (tid cid : String)
    (hnd : (keysA s.comments).Nodup) :
    lookupA (s.delete_task tid).comments cid =
      (lookupA s.comments cid).bind
        (fun v => if v.task_id ≠ tid then some v else none) := by
  unfold KanbanDataStore.delete_task
  rw [lookupA_filter _ s.comments cid hnd]
  cases lookupA s.comments cid with
  | none => rfl
  | some v =>
    by_cases hv : v.task_id = tid
    · simp [hv]
    · simp [hv]

theorem foldl_delete_task_tasks_none_mono :
    ∀ (l : List (String × Task)) (s : KanbanDataStore) (tid : String),
      lookupA s.tasks tid = none →
      lookupA ((l.foldl (fun a p => a.delete_task p.1) s)).tasks tid = none
  | [], _, _, h => h
  | p :: ps, s, tid, h => by
    rw [List.foldl_cons]
    apply foldl_delete_task_tasks_none_mono ps
    show lookupA (eraseA s.tasks p.1) tid = none
    exact lookupA_eraseA_of_none s.tasks p.1 tid h

theorem foldl_delete_task_tasks_none :
    ∀ (l : List (String × Task)) (s : KanbanDataStore) (tid : String),
      tid ∈ keysA l → (keysA s.tasks).Nodup →
      lookupA ((l.foldl (fun a p => a.delete_task p.1) s)).tasks tid = none
  | [], _, _, h, _ => absurd h (List.not_mem_nil _)
  | p :: ps, s, tid, hmem, hnd => by
    rw [List.foldl_cons]
    by_cases hp : p.1 = tid
    · apply foldl_delete_task_tasks_none_mono
      show lookupA (eraseA s.tasks p.1) tid = none
      rw [hp]
      exact lookupA_eraseA_self s.tasks tid hnd
    · have hcons : keysA (p :: ps) = p.1 :: keysA ps := rfl
      rw [hcons] at hmem
      rcases List.mem_cons.mp hmem with heq | htail
      · exact absurd heq.symm hp
      · apply foldl_delete_task_tasks_none ps _ tid htail
        show (keysA (eraseA s.tasks p.1)).Nodup
        exact nodup_keysA_eraseA s.tasks p.1 hnd

theorem foldl_delete_task_comments_none_mono :
    ∀ (l : List (String × Task)) (s : KanbanDataStore) (cid : String),
      lookupA s.comments cid = none →
      lookupA ((l.foldl (fun a p => a.delete_task p.1) s)).comments cid = none
  | [], _, _, h => h
  | p :: ps, s, cid, h => by
    rw [List.foldl_cons]
    apply foldl_delete_task_comments_none_mono ps
    show lookupA (s.comments.filter _) cid = none
    exact lookupA_filter_of_none _ s.comments cid h

theorem foldl_delete_task_comments_none :
    ∀ (l : List (String × Task)) (s : KanbanDataStore) (cid : String)
      (c : Comment),
      lookupA s.comments cid = some c → c.task_id ∈ keysA l →
      (keysA s.comments).Nodup →
      lookupA ((l.foldl (fun a p => a.delete_task p.1) s)).comments cid = none
  | [], _, _, _, _, h, _ => absurd h (List.not_mem_nil _)
  | p :: ps, s, cid, c, hc, hmem, hnd => by
    rw [List.foldl_cons]
    by_cases hp : c.task_id = p.1
    · apply foldl_delete_task_comments_none_mono
      rw [lookupA_delete_task_comments s p.1 cid hnd, hc]
      simp [hp]
    · have h1 : lookupA (s.delete_task p.1).comments cid = some c := by
        rw [lookupA_delete_task_comments s p.1 cid hnd, hc]
        simp [hp]
      have hcons : keysA (p :: ps) = p.1 :: keysA ps := rfl
      rw [hcons] at hmem
      rcases List.mem_cons.mp hmem with heq | htail
      · exact absurd heq hp
      · apply foldl_delete_task_comments_none ps _ cid c h1 htail
        show (keysA (s.comments.filter _)).Nodup
        exact nodup_keysA_filter _ s.comments hnd

/-- C6: deleting a board removes every task whose `board_id` is the board's
id and every comment whose `task_id` is one of those tasks' ids, while the
story table is left completely unchanged. -/
theorem delete_board_cascade (s : KanbanDataStore) (bid : String) (b : Board)
    (hb : lookupA s.boards bid = some b)
    (hndT : (keysA s.tasks).Nodup) (hndC : (keysA s.comments).Nodup) :
    (s.delete_board bid).stories = s.stories ∧
    (∀ tid t, lookupA s.tasks tid = some t → t.board_id = bid →
      lookupA (s.delete_board bid).tasks tid = none) ∧
    (∀ cid c t, lookupA s.comments cid = some c →
      lookupA s.tasks c.task_id = some t → t.board_id = bid →
      lookupA (s.delete_board bid).comments cid = none) := by
  refine ⟨?_, ?_, ?_⟩
  · show ((s.tasks.filter (fun p => p.2.board_id = bid)).foldl
      (fun a p => a.delete_task p.1) s).stories = s.stories
    exact foldl_delete_task_stories _ s
  · intro tid t ht hbd
    show lookupA ((s.tasks.filter (fun p => p.2.board_id = bid)).foldl
      (fun a p => a.delete_task p.1) s).tasks tid = none
    apply foldl_delete_task_tasks_none _ s tid ?_ hndT
    have hmem : (tid, t) ∈ s.tasks := mem_of_lookupA s.tasks tid t ht
    have hv : (tid, t) ∈ s.tasks.filter (fun p => p.2.board_id = bid) :=
      List.mem_filter.mpr ⟨hmem, by simp [hbd]⟩
    exact List.mem_map_of_mem (fun p => p.1) hv
  · intro cid c t hc htk hbd
    show lookupA ((s.tasks.filter (fun p => p.2.board_id = bid)).foldl
      (fun a p => a.delete_task p.1) s).comments cid = none
    apply foldl_delete_task_comments_none _ s cid c hc ?_ hndC
    have hmem : (c.task_id, t) ∈ s.tasks := mem_of_lookupA s.tasks c.task_id t htk
    have hv : (c.task_id, t) ∈ s.tasks.filter (fun p => p.2.board_id = bid) :=
      List.mem_filter.mpr ⟨hmem, by simp [hbd]⟩
    exact List.mem_map_of_mem (fun p => p.1) hv

/-- Witness for C6: deleting `b1` from `sampleStore`. -/
theorem delete_board_cascade_witness :
    (sampleStore.delete_board "b1").stories = sampleStore.stories ∧
    (∀ tid t, lookupA sampleStore.tasks tid = some t → t.board_id = "b1" →
      lookupA (sampleStore.delete_board "b1").tasks tid = none) ∧
    (∀ cid c t, lookupA sampleStore.comments cid = some c →
      lookupA sampleStore.tasks c.task_id = some t → t.board_id = "b1" →
      lookupA (sampleStore.delete_board "b1").comments cid = none) :=
  delete_board_cascade sampleStore "b1" board1 (by decide) (by decide)
    (by decide)

end Kanban

